import Mathlib

/-!
Shallow embedding of `bb_calc/pnl_calculator.py` (module `bb_calc` of the
repository `bb-calc`) together with proofs about its aggregation and CSV
loading logic.

Modelling conventions:
* Python `Decimal` values are modelled by the `Decimal` structure below:
  a sign, a coefficient and a power-of-ten exponent, exactly the
  representation `decimal.Decimal` stores.  Construction from a string is
  exact (context-independent), but the program's additions
  (`total += trade.realized_pnl`) go through the default context: precision
  28 significant digits, `ROUND_HALF_EVEN`.  `Decimal.add` implements that
  context addition.  The context's exponent limits (`Emin`/`Emax` at ±10⁶
  adjusted exponent) and their `Overflow`/`Underflow` signals, and the
  special values `NaN`/`Infinity`, are not modelled; no claim reaches them.
  `Decimal.val` is the exact rational value of a decimal, used to state
  which totals are exact.
* Python `datetime` values (as produced by `datetime.strptime`) are modelled
  by the `DateTime` structure below; Python compares `datetime` values
  lexicographically on (year, month, day, hour, minute, second), which is the
  linear order installed on `DateTime`.
* Functions that can raise are modelled in `Except String`, the error string
  being the message of the raised exception (prefixed by the exception class
  for non-`ValueError` exceptions).
* `Optional[T]` arguments and fields are `Option T`; the `if start:` /
  `if end:` truthiness tests in the source are `Option` matches, since
  `datetime` objects are always truthy.
-/

namespace BBCalc

/-- A naive timestamp as produced by `datetime.strptime`: year, month, day,
hour, minute, second (the program never sets microseconds or timezones). -/
structure DateTime where
  year : Nat
  month : Nat
  day : Nat
  hour : Nat
  minute : Nat
  second : Nat
deriving DecidableEq, Repr

/-- The components of a timestamp as a lexicographically ordered tuple;
Python compares `datetime` values exactly this way. -/
def DateTime.key (t : DateTime) : ℕ ×ₗ ℕ ×ₗ ℕ ×ₗ ℕ ×ₗ ℕ ×ₗ ℕ :=
  toLex (t.year, toLex (t.month, toLex (t.day,
    toLex (t.hour, toLex (t.minute, t.second)))))

theorem DateTime.key_injective : Function.Injective DateTime.key := by
  rintro ⟨y₁, mo₁, d₁, h₁, mi₁, s₁⟩ ⟨y₂, mo₂, d₂, h₂, mi₂, s₂⟩ h
  simp only [DateTime.key, toLex_inj, Prod.mk.injEq] at h
  obtain ⟨rfl, rfl, rfl, rfl, rfl, rfl⟩ := h
  rfl

instance : LinearOrder DateTime := LinearOrder.lift' DateTime.key DateTime.key_injective

/-- A finite `decimal.Decimal` value, as Python stores it: a sign, the
coefficient (its decimal digits, without leading zeros — so a `Nat`) and a
power-of-ten exponent.  `Decimal("1.50")` is `⟨false, 150, -2⟩`;
`Decimal("-0")` is `⟨true, 0, 0⟩`; trailing zeros of the coefficient are
significant for the representation, as in Python. -/
structure Decimal where
  sign : Bool
  coeff : Nat
  exp : Int
deriving DecidableEq, Repr

/-- `Decimal("0")`. -/
def zeroDecimal : Decimal := ⟨false, 0, 0⟩

/-- The exact rational value of a decimal. -/
def Decimal.val (d : Decimal) : ℚ :=
  (if d.sign then -1 else 1) * (d.coeff : ℚ) * (10 : ℚ) ^ d.exp

/-- Number of decimal digits of a coefficient (`0` has one digit), computed
with an explicit fuel so that it reduces in the kernel. -/
def numDigitsAux (fuel n : Nat) : Nat :=
  match fuel with
  | 0 => 1
  | fuel + 1 => if n < 10 then 1 else numDigitsAux fuel (n / 10) + 1

def numDigits (n : Nat) : Nat := numDigitsAux n n

/-- `Decimal.__add__` under the default context (precision 28,
`ROUND_HALF_EVEN`): align both coefficients at the smaller exponent, add the
signed integers exactly, then round the result to at most 28 significant
digits, half to even, raising the exponent accordingly (a carry out of the
28th digit shortens the coefficient once more).  A zero result takes the
aligned exponent, and is negative only when both operands are negative
zeros.  This follows `_pydecimal.Decimal.__add__` plus `_fix`; the
`_normalize` big-gap sentinel of the implementation computes the same
rounded sum. -/
def Decimal.add (a b : Decimal) : Decimal :=
  let e := min a.exp b.exp
  let ai : Int :=
    (if a.sign then -(a.coeff : Int) else (a.coeff : Int)) * 10 ^ (a.exp - e).toNat
  let bi : Int :=
    (if b.sign then -(b.coeff : Int) else (b.coeff : Int)) * 10 ^ (b.exp - e).toNat
  let c := ai + bi
  if c = 0 then
    { sign := a.sign && b.sign, coeff := 0, exp := e }
  else
    let sign := decide (c < 0)
    let m := c.natAbs
    let d := numDigits m
    if d ≤ 28 then { sign := sign, coeff := m, exp := e }
    else
      let drop := d - 28
      let p := (10 : Nat) ^ drop
      let q := m / p
      let r := m % p
      let q' := if 2 * r > p ∨ (2 * r = p ∧ q % 2 = 1) then q + 1 else q
      if q' = 10 ^ 28 then { sign := sign, coeff := 10 ^ 27, exp := e + drop + 1 }
      else { sign := sign, coeff := q', exp := e + drop }

/-- The `Trade` dataclass.  The four string-typed fields are `Option String`
because the CSV loader's row dictionaries can supply `None` for a column that
is missing from a short data row (`csv.DictReader`'s `restval`), and the
dataclass stores whatever value it is given. -/
structure Trade where
  uid : Option String
  contract : Option String
  trade_type : Option String
  quantity : Decimal
  entry_price : Decimal
  realized_pnl : Decimal
  filled_price : Decimal
  exit_type : Option String
  filled_time : DateTime
  created_time : DateTime
deriving DecidableEq, Repr

/-- The `PnLSummary` dataclass: aggregated view of realized P&L. -/
structure PnLSummary where
  total : Decimal
  trade_count : Nat
  start : Option DateTime
  «end» : Option DateTime
  earliest_fill : Option DateTime
  latest_fill : Option DateTime
deriving DecidableEq, Repr

/-- `_filter_trades`: drop trades whose `filled_time` is before `start`
(when given) or after `end` (when given). -/
def _filter_trades (trades : List Trade) (start «end» : Option DateTime) : List Trade :=
  trades.filter fun trade =>
    (match start with
     | some s => !decide (trade.filled_time < s)
     | none => true) &&
    (match «end» with
     | some e => !decide (e < trade.filled_time)
     | none => true)

/-- The `start and end and start > end` guard of `summarize_realized_pnl`. -/
def invalidRange (start «end» : Option DateTime) : Bool :=
  match start, «end» with
  | some s, some e => decide (e < s)
  | _, _ => false

/-- The local accumulator of the aggregation loop in `summarize_realized_pnl`:
`total`, `trade_count`, `earliest`, `latest`. -/
structure SummaryAcc where
  total : Decimal
  trade_count : Nat
  earliest : Option DateTime
  latest : Option DateTime
deriving DecidableEq, Repr

/-- One iteration of the aggregation loop body of `summarize_realized_pnl`. -/
def summaryStep (acc : SummaryAcc) (trade : Trade) : SummaryAcc where
  total := Decimal.add acc.total trade.realized_pnl
  trade_count := acc.trade_count + 1
  earliest :=
    match acc.earliest with
    | none => some trade.filled_time
    | some e => if trade.filled_time < e then some trade.filled_time else some e
  latest :=
    match acc.latest with
    | none => some trade.filled_time
    | some l => if l < trade.filled_time then some trade.filled_time else some l

/-- `summarize_realized_pnl`: validate the optional range, then run the
aggregation loop over the filtered trades. -/
def summarize_realized_pnl (trades : List Trade)
    (start «end» : Option DateTime) : Except String PnLSummary :=
  if invalidRange start «end» then
    Except.error "start datetime must be earlier than or equal to end datetime"
  else
    let acc := (_filter_trades trades start «end»).foldl summaryStep
      { total := zeroDecimal, trade_count := 0, earliest := none, latest := none }
    Except.ok
      { total := acc.total
        trade_count := acc.trade_count
        start := start
        «end» := «end»
        earliest_fill := acc.earliest
        latest_fill := acc.latest }

/-- `calculate_realized_pnl`: call `summarize_realized_pnl` and return the
`total` field; any exception propagates unchanged. -/
def calculate_realized_pnl (trades : List Trade)
    (start «end» : Option DateTime) : Except String Decimal :=
  match summarize_realized_pnl trades start «end» with
  | Except.error e => Except.error e
  | Except.ok summary => Except.ok summary.total

/-! ### Helper lemmas about the aggregation loop -/

/-- Minimum of an optional pair of timestamps. -/
def omin : Option DateTime → Option DateTime → Option DateTime
  | none, o => o
  | some a, none => some a
  | some a, some b => some (min a b)

/-- Maximum of an optional pair of timestamps. -/
def omax : Option DateTime → Option DateTime → Option DateTime
  | none, o => o
  | some a, none => some a
  | some a, some b => some (max a b)

/-- Earliest fill time of a list of trades, if any. -/
def minFill : List Trade → Option DateTime
  | [] => none
  | t :: ts => omin (some t.filled_time) (minFill ts)

/-- Latest fill time of a list of trades, if any. -/
def maxFill : List Trade → Option DateTime
  | [] => none
  | t :: ts => omax (some t.filled_time) (maxFill ts)

theorem omin_none_right (a : Option DateTime) : omin a none = a := by
  cases a <;> rfl

theorem omax_none_right (a : Option DateTime) : omax a none = a := by
  cases a <;> rfl

theorem omin_assoc (a b c : Option DateTime) :
    omin (omin a b) c = omin a (omin b c) := by
  cases a <;> cases b <;> cases c <;> simp [omin, min_assoc]

theorem omax_assoc (a b c : Option DateTime) :
    omax (omax a b) c = omax a (omax b c) := by
  cases a <;> cases b <;> cases c <;> simp [omax, max_assoc]

theorem omin_comm (a b : Option DateTime) : omin a b = omin b a := by
  cases a <;> cases b <;> simp [omin, min_comm]

theorem omax_comm (a b : Option DateTime) : omax a b = omax b a := by
  cases a <;> cases b <;> simp [omax, max_comm]

theorem summaryStep_earliest (acc : SummaryAcc) (t : Trade) :
    (summaryStep acc t).earliest = omin acc.earliest (some t.filled_time) := by
  cases h : acc.earliest with
  | none => simp [summaryStep, omin, h]
  | some e =>
    simp only [summaryStep, h, omin]
    rcases lt_or_le t.filled_time e with hlt | hle
    · rw [if_pos hlt, min_comm, min_eq_left hlt.le]
    · rw [if_neg (not_lt.2 hle), min_eq_left hle]

theorem summaryStep_latest (acc : SummaryAcc) (t : Trade) :
    (summaryStep acc t).latest = omax acc.latest (some t.filled_time) := by
  cases h : acc.latest with
  | none => simp [summaryStep, omax, h]
  | some l =>
    simp only [summaryStep, h, omax]
    rcases lt_or_le l t.filled_time with hlt | hle
    · rw [if_pos hlt, max_comm, max_eq_left hlt.le]
    · rw [if_neg (not_lt.2 hle), max_eq_left hle]

theorem foldl_summaryStep_total (l : List Trade) (acc : SummaryAcc) :
    (l.foldl summaryStep acc).total =
      (l.map Trade.realized_pnl).foldl Decimal.add acc.total := by
  induction l generalizing acc with
  | nil => simp
  | cons t ts ih =>
    simp only [List.foldl_cons, List.map_cons, ih, summaryStep]

/-- The additions of an aggregation run are all exact: no step of the
running context-rounded sum loses value to 28-digit rounding. -/
def ExactTrace : Decimal → List Decimal → Prop
  | _, [] => True
  | acc, x :: xs =>
    (Decimal.add acc x).val = acc.val + x.val ∧ ExactTrace (Decimal.add acc x) xs

theorem exactTrace_foldl_val (l : List Decimal) (acc : Decimal)
    (h : ExactTrace acc l) :
    (l.foldl Decimal.add acc).val = acc.val + (l.map Decimal.val).sum := by
  induction l generalizing acc with
  | nil => simp
  | cons x xs ih =>
    obtain ⟨hx, hrest⟩ := h
    simp only [List.foldl_cons, List.map_cons, List.sum_cons]
    rw [ih _ hrest, hx]
    ring

theorem foldl_summaryStep_count (l : List Trade) (acc : SummaryAcc) :
    (l.foldl summaryStep acc).trade_count = acc.trade_count + l.length := by
  induction l generalizing acc with
  | nil => simp
  | cons t ts ih =>
    simp only [List.foldl_cons, List.length_cons, ih, summaryStep]
    omega

theorem foldl_summaryStep_earliest (l : List Trade) (acc : SummaryAcc) :
    (l.foldl summaryStep acc).earliest = omin acc.earliest (minFill l) := by
  induction l generalizing acc with
  | nil => simp [minFill, omin_none_right]
  | cons t ts ih =>
    simp only [List.foldl_cons, minFill, ih, summaryStep_earliest, omin_assoc]

theorem foldl_summaryStep_latest (l : List Trade) (acc : SummaryAcc) :
    (l.foldl summaryStep acc).latest = omax acc.latest (maxFill l) := by
  induction l generalizing acc with
  | nil => simp [maxFill, omax_none_right]
  | cons t ts ih =>
    simp only [List.foldl_cons, maxFill, ih, summaryStep_latest, omax_assoc]

theorem minFill_eq_none_iff (l : List Trade) : minFill l = none ↔ l = [] := by
  cases l with
  | nil => simp [minFill]
  | cons t ts =>
    simp only [minFill]
    cases minFill ts <;> simp [omin]

theorem maxFill_eq_none_iff (l : List Trade) : maxFill l = none ↔ l = [] := by
  cases l with
  | nil => simp [maxFill]
  | cons t ts =>
    simp only [maxFill]
    cases maxFill ts <;> simp [omax]

theorem minFill_mem (l : List Trade) (m : DateTime) (h : minFill l = some m) :
    m ∈ l.map Trade.filled_time := by
  induction l generalizing m with
  | nil => simp [minFill] at h
  | cons t ts ih =>
    simp only [minFill] at h
    cases hts : minFill ts with
    | none =>
      rw [hts, omin_none_right] at h
      obtain rfl := Option.some.inj h
      simp
    | some m' =>
      rw [hts] at h
      simp only [omin, Option.some.injEq] at h
      rcases min_cases t.filled_time m' with ⟨heq, _⟩ | ⟨heq, _⟩
      · rw [heq] at h
        subst h
        simp
      · rw [heq] at h
        subst h
        simp only [List.map_cons, List.mem_cons]
        exact Or.inr (ih _ hts)

theorem minFill_le (l : List Trade) (m : DateTime) (h : minFill l = some m) :
    ∀ x ∈ l.map Trade.filled_time, m ≤ x := by
  induction l generalizing m with
  | nil => simp [minFill] at h
  | cons t ts ih =>
    simp only [minFill] at h
    cases hts : minFill ts with
    | none =>
      rw [hts] at h
      simp only [omin, Option.some.injEq] at h
      rcases (minFill_eq_none_iff ts).1 hts with rfl
      simp [← h]
    | some m' =>
      rw [hts] at h
      simp only [omin, Option.some.injEq] at h
      intro x hx
      simp only [List.map_cons, List.mem_cons] at hx
      rcases hx with rfl | hx
      · exact h ▸ min_le_left _ _
      · exact le_trans (h ▸ min_le_right _ _) (ih m' hts x hx)

theorem maxFill_mem (l : List Trade) (m : DateTime) (h : maxFill l = some m) :
    m ∈ l.map Trade.filled_time := by
  induction l generalizing m with
  | nil => simp [maxFill] at h
  | cons t ts ih =>
    simp only [maxFill] at h
    cases hts : maxFill ts with
    | none =>
      rw [hts, omax_none_right] at h
      obtain rfl := Option.some.inj h
      simp
    | some m' =>
      rw [hts] at h
      simp only [omax, Option.some.injEq] at h
      rcases max_cases t.filled_time m' with ⟨heq, _⟩ | ⟨heq, _⟩
      · rw [heq] at h
        subst h
        simp
      · rw [heq] at h
        subst h
        simp only [List.map_cons, List.mem_cons]
        exact Or.inr (ih _ hts)

theorem maxFill_ge (l : List Trade) (m : DateTime) (h : maxFill l = some m) :
    ∀ x ∈ l.map Trade.filled_time, x ≤ m := by
  induction l generalizing m with
  | nil => simp [maxFill] at h
  | cons t ts ih =>
    simp only [maxFill] at h
    cases hts : maxFill ts with
    | none =>
      rw [hts] at h
      simp only [omax, Option.some.injEq] at h
      rcases (maxFill_eq_none_iff ts).1 hts with rfl
      simp [← h]
    | some m' =>
      rw [hts] at h
      simp only [omax, Option.some.injEq] at h
      intro x hx
      simp only [List.map_cons, List.mem_cons] at hx
      rcases hx with rfl | hx
      · exact h ▸ le_max_left _ _
      · exact le_trans (ih m' hts x hx) (h ▸ le_max_right _ _)

theorem minFill_perm {l l' : List Trade} (h : l.Perm l') : minFill l = minFill l' := by
  induction h with
  | nil => rfl
  | cons x _ ih => simp [minFill, ih]
  | swap x y l =>
    simp only [minFill, ← omin_assoc]
    rw [omin_comm (some y.filled_time) (some x.filled_time)]
  | trans _ _ ih₁ ih₂ => exact ih₁.trans ih₂

theorem maxFill_perm {l l' : List Trade} (h : l.Perm l') : maxFill l = maxFill l' := by
  induction h with
  | nil => rfl
  | cons x _ ih => simp [maxFill, ih]
  | swap x y l =>
    simp only [maxFill, ← omax_assoc]
    rw [omax_comm (some y.filled_time) (some x.filled_time)]
  | trans _ _ ih₁ ih₂ => exact ih₁.trans ih₂

/-- Membership characterisation of `_filter_trades`: inclusive bounds. -/
theorem mem_filter_trades (trades : List Trade) (start «end» : Option DateTime)
    (t : Trade) :
    t ∈ _filter_trades trades start «end» ↔
      t ∈ trades ∧ (∀ s ∈ start, s ≤ t.filled_time) ∧ (∀ e ∈ «end», t.filled_time ≤ e) := by
  simp only [_filter_trades, List.mem_filter, Bool.and_eq_true]
  constructor
  · rintro ⟨hm, h₁, h₂⟩
    refine ⟨hm, ?_, ?_⟩
    · intro s hs
      cases start with
      | none => simp at hs
      | some s' =>
        simp only [Option.mem_def, Option.some.injEq] at hs
        subst hs
        simpa [not_lt] using h₁
    · intro e he
      cases «end» with
      | none => simp at he
      | some e' =>
        simp only [Option.mem_def, Option.some.injEq] at he
        subst he
        simpa [not_lt] using h₂
  · rintro ⟨hm, h₁, h₂⟩
    refine ⟨hm, ?_, ?_⟩
    · cases start with
      | none => rfl
      | some s' => simpa [not_lt] using h₁ s' rfl
    · cases «end» with
      | none => rfl
      | some e' => simpa [not_lt] using h₂ e' rfl

theorem filter_trades_none_none (trades : List Trade) :
    _filter_trades trades none none = trades := by
  simp [_filter_trades]

/-! ### Sample data used by concrete witnesses -/

/-- A concrete fill timestamp, 2025-07-18 06:34:26. -/
def dt0 : DateTime := ⟨2025, 7, 18, 6, 34, 26⟩

/-- A concrete fill timestamp, 2025-07-18 07:33:23. -/
def dt1 : DateTime := ⟨2025, 7, 18, 7, 33, 23⟩

/-- `Decimal("1")`. -/
def decOne : Decimal := ⟨false, 1, 0⟩

/-- `Decimal("2")`. -/
def decTwo : Decimal := ⟨false, 2, 0⟩

/-- `Decimal("3")`. -/
def decThree : Decimal := ⟨false, 3, 0⟩

/-- `Decimal("10000000000000000000000000001")`: 29 significant digits, more
than the default context's precision. -/
def decBig : Decimal := ⟨false, 10 ^ 28 + 1, 0⟩

/-- `Decimal("0") + decBig` under the default context: rounded down to 28
significant digits, `1.000000000000000000000000000E+28`. -/
def decBigRounded : Decimal := ⟨false, 10 ^ 27, 1⟩

/-- `Decimal("1E+28")`. -/
def decHuge : Decimal := ⟨false, 1, 28⟩

/-- `Decimal("-1E+28")`. -/
def decHugeNeg : Decimal := ⟨true, 1, 28⟩

/-- A concrete trade with the given realized P&L and fill time. -/
def sampleTrade (pnl : Decimal) (ft : DateTime) : Trade :=
  { uid := some "382647166"
    contract := some "ETHUSDT"
    trade_type := some "SELL"
    quantity := decOne
    entry_price := ⟨false, 100, 0⟩
    realized_pnl := pnl
    filled_price := ⟨false, 100, 0⟩
    exit_type := some "Trade"
    filled_time := ft
    created_time := ft }

/-! ### CSV loader

The file contents are modelled as the list of lines Python's file iteration
produces: each element keeps its trailing newline, and no element is the
empty string.  The `csv` module's excel dialect is modelled by the record
splitter below (delimiter `,`, quote `"`, doubled quotes, non-strict:
data after a closing quote continues the field, an unterminated quote at end
of input yields the partial field, a quoted field may span lines keeping the
newline as data, a blank line yields the empty record).  `csv.Error` for NUL
bytes is not modelled. -/

/-- Parser state of the CSV record splitter. -/
inductive CsvState where
  | startField
  | inField
  | inQuoted
  | quoteInQuoted
deriving DecidableEq, Repr

/-- Close the current record: flush the pending field (accumulated reversed)
onto the accumulated fields (also reversed) and restore file order. -/
def endRecord (field : List Char) (fields : List String) : List String :=
  (String.mk field.reverse :: fields).reverse

/-- A record output at end of line: a fully blank line yields the empty
record (which `csv.DictReader` later skips), otherwise the pending field is
flushed. -/
def endLineRecord (field : List Char) (fields : List String) : List String :=
  match field, fields with
  | [], [] => []
  | _, _ => endRecord field fields

/-- The character-level CSV record splitter (Python `csv.reader` over the
concatenation of the input lines). -/
def csvSplitAux (st : CsvState) (field : List Char) (fields : List String) :
    List Char → List (List String)
  | [] =>
    match st, field, fields with
    | .startField, [], [] => []
    | _, _, _ => [endRecord field fields]
  | c :: cs =>
    match st with
    | .startField =>
      if c = '"' then csvSplitAux .inQuoted field fields cs
      else if c = ',' then csvSplitAux .startField [] ("" :: fields) cs
      else if c = '\n' then
        endLineRecord field fields :: csvSplitAux .startField [] [] cs
      else if c = '\r' then
        endLineRecord field fields ::
          (match cs with
           | '\n' :: cs' => csvSplitAux .startField [] [] cs'
           | cs' => csvSplitAux .startField [] [] cs')
      else csvSplitAux .inField (c :: field) fields cs
    | .inField =>
      if c = ',' then
        csvSplitAux .startField [] (String.mk field.reverse :: fields) cs
      else if c = '\n' then
        endRecord field fields :: csvSplitAux .startField [] [] cs
      else if c = '\r' then
        endRecord field fields ::
          (match cs with
           | '\n' :: cs' => csvSplitAux .startField [] [] cs'
           | cs' => csvSplitAux .startField [] [] cs')
      else csvSplitAux .inField (c :: field) fields cs
    | .inQuoted =>
      if c = '"' then csvSplitAux .quoteInQuoted field fields cs
      else csvSplitAux .inQuoted (c :: field) fields cs
    | .quoteInQuoted =>
      if c = '"' then csvSplitAux .inQuoted ('"' :: field) fields cs
      else if c = ',' then
        csvSplitAux .startField [] (String.mk field.reverse :: fields) cs
      else if c = '\n' then
        endRecord field fields :: csvSplitAux .startField [] [] cs
      else if c = '\r' then
        endRecord field fields ::
          (match cs with
           | '\n' :: cs' => csvSplitAux .startField [] [] cs'
           | cs' => csvSplitAux .startField [] [] cs')
      else csvSplitAux .inField (c :: field) fields cs
/-- `next(csv.reader([line]))`: the line parsed as a single CSV record.
A blank line yields the empty record. -/
def parseCsvLine (line : String) : List String :=
  (csvSplitAux .startField [] [] line.data).headD []

/-- `csv.reader(lines)`: the full record stream of the given lines, with
quoted fields spanning line boundaries. -/
def csvRecords (lines : List String) : List (List String) :=
  csvSplitAux .startField [] [] (String.join lines).data

theorem parseCsvLine_simple : parseCsvLine "a,b\n" = ["a", "b"] := rfl

theorem parseCsvLine_blank : parseCsvLine "\n" = [] := rfl

theorem parseCsvLine_quoted : parseCsvLine "\"a,b\",c\n" = ["a,b", "c"] := rfl

theorem parseCsvLine_unterminated_quote : parseCsvLine "\"ab\n" = ["ab\n"] := rfl

theorem csvRecords_quoted_field_spans_lines :
    csvRecords ["\"a\n", "b\",c\n"] = [["a\nb", "c"]] := rfl

/-- Characters stripped by Python `str.strip()`. -/
def isPyWhitespace (c : Char) : Bool :=
  c = ' ' || c = '\t' || c = '\n' || c = '\r' || c = '\x0b' || c = '\x0c'

/-- Python `str.strip()`. -/
def pyStrip (s : String) : String :=
  String.mk ((s.data.dropWhile isPyWhitespace).reverse.dropWhile isPyWhitespace).reverse

/-- `_clean_header_cell`: `value.strip().lstrip(U+FEFF)` (every leading
byte-order mark after stripping whitespace is removed). -/
def _clean_header_cell (value : String) : String :=
  String.mk ((pyStrip value).data.dropWhile (fun c => c = '\uFEFF'))

/-- `_required_columns` (a Python set literal; modelled as the list of its
elements, membership being all that is used). -/
def _required_columns : List String :=
  ["Uid", "Contracts", "Trade Type", "Qty", "Entry Price", "Realized P&L",
   "Filled Price", "Exit Type", "Filled/Settlement Time(UTC+0)", "Create Time"]

/-- The cleaned cell set of a line for header detection: non-empty raw cells
of the single-row CSV parse, cleaned. -/
def headerCells (line : String) : List String :=
  ((parseCsvLine line).filter (fun cell => cell ≠ "")).map _clean_header_cell

/-- The loop-body test of `_find_header_index`:
`required.issubset(cleaned_cells)`. -/
def isHeaderLine (line : String) : Bool :=
  _required_columns.all (fun k => (headerCells line).contains k)

/-- The `for index, raw_line in enumerate(lines)` scan of
`_find_header_index`. -/
def headerScan : List String → Option Nat
  | [] => none
  | raw_line :: rest =>
    if isHeaderLine raw_line then some 0
    else (headerScan rest).map (· + 1)

/-- `_find_header_index`: index of the first line whose cleaned non-empty
cell set contains every required column, else the header-not-found error. -/
def _find_header_index (lines : List String) : Except String Nat :=
  match headerScan lines with
  | some index => Except.ok index
  | none =>
    Except.error "Unable to locate header row containing required columns in CSV file"

/-! ### Field-level parsing -/

/-- Numeric value of a digit character. -/
def digitVal (c : Char) : Nat := c.toNat - '0'.toNat

/-- Value of a digit string, most significant first. -/
def digitsToNat (ds : List Char) : Nat :=
  ds.foldl (fun acc c => acc * 10 + digitVal c) 0

/-- The optional exponent tail of a decimal numeric string:
empty input means exponent 0, otherwise `e`/`E`, an optional sign and at
least one digit, consuming the whole input. -/
def parseExpTail : List Char → Option Int
  | [] => some 0
  | c :: cs =>
    if c = 'e' || c = 'E' then
      match cs with
      | '+' :: ds => expDigits ds
      | '-' :: ds => (expDigits ds).map (fun n => -n)
      | ds => expDigits ds
    else none
where
  expDigits (ds : List Char) : Option Int :=
    if !ds.isEmpty && ds.all Char.isDigit then some (digitsToNat ds : Int)
    else none

/-- An unsigned decimal numeric string: digits with an optional fractional
part (at least one digit overall) and an optional exponent.  Returns the
mantissa digits' value and the power-of-ten exponent. -/
def parseUnsignedDecimal (cs : List Char) : Option (Nat × Int) :=
  let ip := cs.takeWhile Char.isDigit
  let rest1 := cs.drop ip.length
  match rest1 with
  | '.' :: rest2 =>
    let fp := rest2.takeWhile Char.isDigit
    let rest3 := rest2.drop fp.length
    if ip.length + fp.length = 0 then none
    else (parseExpTail rest3).map (fun e => (digitsToNat (ip ++ fp), e - fp.length))
  | _ =>
    if ip.length = 0 then none
    else (parseExpTail rest1).map (fun e => (digitsToNat ip, e))

/-- `Decimal(value)` on a finite numeric string: leading/trailing whitespace
is stripped, then an optional sign and an unsigned decimal numeric string;
construction is exact and context-independent.  (The special values
`NaN`/`Infinity` and digit-group underscores accepted by Python are not
modelled; the program's data never contains them.) -/
def decimalOfString (s : String) : Option Decimal :=
  match (pyStrip s).data with
  | '+' :: rest => (parseUnsignedDecimal rest).map (fun p => Decimal.mk false p.1 p.2)
  | '-' :: rest => (parseUnsignedDecimal rest).map (fun p => Decimal.mk true p.1 p.2)
  | rest => (parseUnsignedDecimal rest).map (fun p => Decimal.mk false p.1 p.2)

/-- `_parse_decimal`.  The value argument is a row dictionary entry, which is
`None` for a column padded into a short row: `Decimal(None)` raises
`TypeError`, which the `except (InvalidOperation, ValueError)` clause does
not catch, so it propagates as-is rather than as the wrapped message. -/
def _parse_decimal (value : Option String) (column : String) : Except String Decimal :=
  match value with
  | none => Except.error "TypeError: conversion from NoneType to Decimal is not supported"
  | some v =>
    match decimalOfString v with
    | some q => Except.ok q
    | none =>
      Except.error ("Invalid decimal value '" ++ v ++ "' in column '" ++ column ++ "'")

/-- One or two digits (`strptime`'s numeric directives); a third consecutive
digit is left in the remainder, where the following literal match fails. -/
def parseNum12 : List Char → Option (Nat × List Char)
  | a :: b :: rest =>
    if a.isDigit then
      if b.isDigit then some (digitVal a * 10 + digitVal b, rest)
      else some (digitVal a, b :: rest)
    else none
  | [a] => if a.isDigit then some (digitVal a, []) else none
  | [] => none

/-- Exactly four digits (`strptime`'s `%Y`). -/
def parseYear4 : List Char → Option (Nat × List Char)
  | a :: b :: c :: d :: rest =>
    if a.isDigit && b.isDigit && c.isDigit && d.isDigit then
      some (digitVal a * 1000 + digitVal b * 100 + digitVal c * 10 + digitVal d, rest)
    else none
  | _ => none

/-- A literal character of the format string. -/
def expectChar (c : Char) : List Char → Option (List Char)
  | x :: rest => if x = c then some rest else none
  | [] => none

/-- A whitespace character of the format string matches a non-empty
whitespace run. -/
def skipWs1 : List Char → Option (List Char)
  | x :: rest =>
    if isPyWhitespace x then some (rest.dropWhile isPyWhitespace) else none
  | [] => none

def isLeapYear (y : Nat) : Bool :=
  (y % 4 = 0 && y % 100 ≠ 0) || y % 400 = 0

def daysInMonth (y m : Nat) : Nat :=
  if m = 2 then (if isLeapYear y then 29 else 28)
  else if m = 4 ∨ m = 6 ∨ m = 9 ∨ m = 11 then 30
  else 31

/-- The `datetime` constructor's validation combined with the residual range
constraints of `strptime`'s directive regexes. -/
def mkValidDatetime (y mo d h mi s : Nat) : Option DateTime :=
  if 1 ≤ y ∧ y ≤ 9999 ∧ 1 ≤ mo ∧ mo ≤ 12 ∧ 1 ≤ d ∧ d ≤ daysInMonth y mo ∧
      h ≤ 23 ∧ mi ≤ 59 ∧ s ≤ 59 then
    some ⟨y, mo, d, h, mi, s⟩
  else none

/-- `datetime.strptime(value, "%Y-%m-%d %H:%M:%S")`. -/
def strptimeFull (cs : List Char) : Option DateTime := do
  let (y, cs) ← parseYear4 cs
  let cs ← expectChar '-' cs
  let (mo, cs) ← parseNum12 cs
  let cs ← expectChar '-' cs
  let (d, cs) ← parseNum12 cs
  let cs ← skipWs1 cs
  let (h, cs) ← parseNum12 cs
  let cs ← expectChar ':' cs
  let (mi, cs) ← parseNum12 cs
  let cs ← expectChar ':' cs
  let (s, cs) ← parseNum12 cs
  match cs with
  | [] => mkValidDatetime y mo d h mi s
  | _ => none

/-- `datetime.strptime(value, "%Y-%m-%d")`. -/
def strptimeDateOnly (cs : List Char) : Option DateTime := do
  let (y, cs) ← parseYear4 cs
  let cs ← expectChar '-' cs
  let (mo, cs) ← parseNum12 cs
  let cs ← expectChar '-' cs
  let (d, cs) ← parseNum12 cs
  match cs with
  | [] => mkValidDatetime y mo d 0 0 0
  | _ => none

/-- `_parse_datetime`: try the formats of `_DATE_FORMATS` in order.
`strptime(None, fmt)` raises `TypeError`, which `except ValueError` does not
catch, so a `None` row value propagates as a `TypeError`. -/
def _parse_datetime (value : Option String) (column : String) : Except String DateTime :=
  match value with
  | none => Except.error "TypeError: strptime() argument 1 must be str, not None"
  | some v =>
    match strptimeFull v.data with
    | some t => Except.ok t
    | none =>
      match strptimeDateOnly v.data with
      | some t => Except.ok t
      | none =>
        Except.error
          ("Unsupported datetime format '" ++ v ++ "' in column '" ++ column ++ "'")

/-! ### Row dictionaries and `load_trades` -/

/-- The row dictionary built by `csv.DictReader`: `dict(zip(fieldnames, row))`
padded with `restval = None` for the fieldnames beyond a short row; a
duplicated column name takes the value at its last occurrence.  The outer
`none` is an absent key (a `KeyError` on lookup). -/
def dictGet (fieldnames row : List String) (key : String) : Option (Option String) :=
  match ((List.range fieldnames.length).filter
      (fun i => decide (fieldnames.get? i = some key))).getLast? with
  | none => none
  | some j => some (row.get? j)

/-- A `row[key]` dictionary access: `KeyError` when the key is absent. -/
def dictLookup (row : String → Option (Option String)) (key : String) :
    Except String (Option String) :=
  match row key with
  | some v => Except.ok v
  | none => Except.error ("KeyError: " ++ key)

/-- `_normalize_trade`: build a `Trade` from a row dictionary, evaluating the
field expressions in the order they appear in the `Trade(...)` call. -/
def _normalize_trade (row : String → Option (Option String)) : Except String Trade := do
  let uid ← dictLookup row "Uid"
  let contract ← dictLookup row "Contracts"
  let trade_type ← dictLookup row "Trade Type"
  let quantity ← _parse_decimal (← dictLookup row "Qty") "Qty"
  let entry_price ← _parse_decimal (← dictLookup row "Entry Price") "Entry Price"
  let realized_pnl ← _parse_decimal (← dictLookup row "Realized P&L") "Realized P&L"
  let filled_price ← _parse_decimal (← dictLookup row "Filled Price") "Filled Price"
  let exit_type ← dictLookup row "Exit Type"
  let filled_time ← _parse_datetime (← dictLookup row "Filled/Settlement Time(UTC+0)")
    "Filled/Settlement Time(UTC+0)"
  let created_time ← _parse_datetime (← dictLookup row "Create Time") "Create Time"
  pure { uid, contract, trade_type, quantity, entry_price, realized_pnl,
         filled_price, exit_type, filled_time, created_time }

/-- Insertion into a sorted list of strings, for `sorted(missing_columns)`. -/
def insertSorted (s : String) : List String → List String
  | [] => [s]
  | x :: xs => if s ≤ x then s :: x :: xs else x :: insertSorted s xs

/-- `sorted` on strings (code-point lexicographic, as in Python). -/
def sortStrings (l : List String) : List String := l.foldr insertSorted []

/-- `load_trades`, from the list of lines of the file (each keeping its
trailing newline): locate the header, clean the field names, check required
columns, then normalize every non-blank data row in order.  The
file-existence check and the `fieldnames is None` branch for an empty
remainder are included; the caller-supplied encoding only affects the
decoding into `lines` and is not modelled. -/
def load_trades (lines : List String) : Except String (List Trade) :=
  match _find_header_index lines with
  | Except.error e => Except.error e
  | Except.ok header_index =>
    match csvRecords (lines.drop header_index) with
    | [] => Except.error "CSV file is missing a header row"
    | rawHeader :: dataRows =>
      let fieldnames := rawHeader.map _clean_header_cell
      let missing_columns :=
        _required_columns.filter (fun key => !fieldnames.contains key)
      match missing_columns with
      | [] =>
        (dataRows.filter (fun row => !row.isEmpty)).mapM
          (fun row => _normalize_trade (dictGet fieldnames row))
      | _ =>
        Except.error ("Missing required columns: " ++
          String.intercalate ", " (sortStrings missing_columns))

/-- The summary produced by `summarize_realized_pnl` on the one-trade sample
input used by the invariant witness. -/
def sampleSummary : PnLSummary :=
  { total := decOne, trade_count := 1, start := some dt0, «end» := some dt1,
    earliest_fill := some dt0, latest_fill := some dt0 }

/-! ### Claims about the aggregator -/

/-- Claim C1, counterexample: on a single record whose realized P&L carries
29 significant digits, the program's context-rounded total differs in value
from the exact decimal sum of the realized P&L fields (which, for one
record, is the field itself): `Decimal("0") + decBig` rounds to 28
significant digits. -/
theorem C1_counterexample :
    summarize_realized_pnl [sampleTrade decBig dt0] none none =
      Except.ok
        { total := decBigRounded, trade_count := 1, start := none, «end» := none,
          earliest_fill := some dt0, latest_fill := some dt0 } ∧
    decBigRounded.val ≠
      (([sampleTrade decBig dt0].map Trade.realized_pnl).map Decimal.val).sum := by
  refine ⟨rfl, ?_⟩
  simp only [List.map_cons, List.map_nil, List.sum_cons, List.sum_nil, sampleTrade]
  norm_num [Decimal.val, decBig, decBigRounded]

/-- Claim C1 (amended): `summarize_realized_pnl` with no bounds succeeds,
its `trade_count` is the number of records, and its `total` is the running
context-rounded `Decimal` sum of the realized P&L fields; whenever no step
of that running sum rounds (every addition is exact in value, as is the case
for all sums within 28 significant digits), the total's value is the exact
decimal sum of the fields. -/
theorem C1_total_rounded_sum (trades : List Trade) :
    ∃ s, summarize_realized_pnl trades none none = Except.ok s ∧
      s.trade_count = trades.length ∧
      s.total = (trades.map Trade.realized_pnl).foldl Decimal.add zeroDecimal ∧
      (ExactTrace zeroDecimal (trades.map Trade.realized_pnl) →
        s.total.val = ((trades.map Trade.realized_pnl).map Decimal.val).sum) := by
  unfold summarize_realized_pnl
  rw [if_neg (by decide), filter_trades_none_none]
  refine ⟨_, rfl, by simp [foldl_summaryStep_count],
    by simp [foldl_summaryStep_total], ?_⟩
  intro h
  have hval := exactTrace_foldl_val (trades.map Trade.realized_pnl) zeroDecimal h
  simp only [foldl_summaryStep_total]
  rw [hval]
  simp [Decimal.val, zeroDecimal]

theorem C1_total_rounded_sum_witness :
    ExactTrace zeroDecimal
      ([sampleTrade decOne dt0, sampleTrade decTwo dt1].map Trade.realized_pnl) ∧
    summarize_realized_pnl [sampleTrade decOne dt0, sampleTrade decTwo dt1]
        none none =
      Except.ok
        { total := decThree, trade_count := 2, start := none, «end» := none,
          earliest_fill := some dt0, latest_fill := some dt1 } ∧
    decThree.val =
      (([sampleTrade decOne dt0, sampleTrade decTwo dt1].map
        Trade.realized_pnl).map Decimal.val).sum := by
  have htrace : ExactTrace zeroDecimal
      ([sampleTrade decOne dt0, sampleTrade decTwo dt1].map Trade.realized_pnl) := by
    show (decOne.val = zeroDecimal.val + decOne.val) ∧
      (decThree.val = decOne.val + decTwo.val) ∧ True
    norm_num [Decimal.val, zeroDecimal, decOne, decTwo, decThree]
  have hsum : summarize_realized_pnl [sampleTrade decOne dt0, sampleTrade decTwo dt1]
      none none =
      Except.ok
        { total := decThree, trade_count := 2, start := none, «end» := none,
          earliest_fill := some dt0, latest_fill := some dt1 } := rfl
  obtain ⟨s, hs, -, -, himp⟩ :=
    C1_total_rounded_sum [sampleTrade decOne dt0, sampleTrade decTwo dt1]
  have hse : s =
      { total := decThree, trade_count := 2, start := none, «end» := none,
        earliest_fill := some dt0, latest_fill := some dt1 } :=
    Except.ok.inj (hs.symm.trans hsum)
  have hval := himp htrace
  rw [hse] at hval
  exact ⟨htrace, hsum, hval⟩

/-- Claim C2: for bounds with start ≤ end, the filtering shared by
`summarize_realized_pnl` and `calculate_realized_pnl` is inclusive on both
ends: a record is kept iff its `filled_time` is ≥ `start` (when given) and
≤ `end` (when given); in particular a record whose fill time equals a bound
is included. -/
theorem C2_filter_inclusive (trades : List Trade) (start «end» : Option DateTime)
    (_hrange : ∀ s ∈ start, ∀ e ∈ «end», s ≤ e) (t : Trade) :
    t ∈ _filter_trades trades start «end» ↔
      t ∈ trades ∧ (∀ s ∈ start, s ≤ t.filled_time) ∧
        (∀ e ∈ «end», t.filled_time ≤ e) :=
  mem_filter_trades trades start «end» t

theorem C2_filter_inclusive_witness :
    (∀ s ∈ (some dt0 : Option DateTime), ∀ e ∈ (some dt1 : Option DateTime), s ≤ e) ∧
      sampleTrade decOne dt0 ∈ _filter_trades [sampleTrade decOne dt0] (some dt0) (some dt1) := by
  have hrange : ∀ s ∈ (some dt0 : Option DateTime),
      ∀ e ∈ (some dt1 : Option DateTime), s ≤ e := by
    intro s hs e he
    simp only [Option.mem_def, Option.some.injEq] at hs he
    subst hs; subst he
    decide
  refine ⟨hrange, ?_⟩
  refine (C2_filter_inclusive [sampleTrade decOne dt0] (some dt0) (some dt1) hrange
    (sampleTrade decOne dt0)).mpr ⟨List.mem_singleton.mpr rfl, ?_, ?_⟩
  · intro s hs
    simp only [Option.mem_def, Option.some.injEq] at hs
    subst hs
    decide
  · intro e he
    simp only [Option.mem_def, Option.some.injEq] at he
    subst he
    decide

/-- Claim C3: with both bounds given and start > end, `summarize_realized_pnl`
raises the invalid-range `ValueError` regardless of the records, producing no
summary. -/
theorem C3_invalid_range (trades : List Trade) (s e : DateTime) (h : e < s) :
    summarize_realized_pnl trades (some s) (some e) =
      Except.error "start datetime must be earlier than or equal to end datetime" := by
  unfold summarize_realized_pnl
  rw [if_pos (by simp [invalidRange, h])]

theorem C3_invalid_range_witness :
    dt0 < dt1 ∧
      summarize_realized_pnl [sampleTrade decOne dt0] (some dt1) (some dt0) =
        Except.error "start datetime must be earlier than or equal to end datetime" :=
  ⟨by decide, C3_invalid_range [sampleTrade decOne dt0] dt1 dt0 (by decide)⟩

/-- Claim C4: with valid bounds, an empty input list — or any input on which
the range filter keeps no record — yields a summary with total 0, count 0,
unset earliest/latest fills and the echoed bounds, and no error. -/
theorem C4_empty_summary (trades : List Trade) (start «end» : Option DateTime)
    (hval : invalidRange start «end» = false)
    (hempty : _filter_trades trades start «end» = []) :
    summarize_realized_pnl trades start «end» =
      Except.ok
        { total := zeroDecimal, trade_count := 0, start := start, «end» := «end»,
          earliest_fill := none, latest_fill := none } := by
  unfold summarize_realized_pnl
  rw [if_neg (by simp [hval]), hempty]
  rfl

theorem C4_empty_summary_witness :
    invalidRange (some dt0) (some dt1) = false ∧
      _filter_trades [] (some dt0) (some dt1) = [] ∧
      summarize_realized_pnl [] (some dt0) (some dt1) =
        Except.ok
          { total := zeroDecimal, trade_count := 0, start := some dt0, «end» := some dt1,
            earliest_fill := none, latest_fill := none } :=
  ⟨by decide, rfl, C4_empty_summary [] (some dt0) (some dt1) (by decide) rfl⟩

/-- Claim C5: `calculate_realized_pnl` is the `total` projection of
`summarize_realized_pnl`: it returns exactly that total and fails in exactly
the same cases with the same error. -/
theorem C5_calculate_is_total_projection (trades : List Trade)
    (start «end» : Option DateTime) :
    calculate_realized_pnl trades start «end» =
      (summarize_realized_pnl trades start «end»).map PnLSummary.total := by
  unfold calculate_realized_pnl
  cases summarize_realized_pnl trades start «end» <;> rfl

/-- A trade whose realized P&L is `1E+28`. -/
def tHuge : Trade := sampleTrade decHuge dt0

/-- A trade whose realized P&L is `-1E+28`. -/
def tHugeNeg : Trade := sampleTrade decHugeNeg dt0

/-- A trade whose realized P&L is `1`. -/
def tOne : Trade := sampleTrade decOne dt0

/-- Claim C6, counterexample: with realized P&L values `1E+28`, `-1E+28`
and `1`, the two iteration orders below give totals `1` and `0E+1`: the
context-rounded addition `1E+28 + 1` loses the `1` to 28-digit rounding, so
the summary is not permutation-invariant (the totals differ even in value). -/
theorem C6_counterexample :
    ([tHuge, tHugeNeg, tOne].Perm [tHuge, tOne, tHugeNeg]) ∧
    summarize_realized_pnl [tHuge, tHugeNeg, tOne] none none =
      Except.ok
        { total := decOne, trade_count := 3, start := none, «end» := none,
          earliest_fill := some dt0, latest_fill := some dt0 } ∧
    summarize_realized_pnl [tHuge, tOne, tHugeNeg] none none =
      Except.ok
        { total := ⟨false, 0, 1⟩, trade_count := 3, start := none, «end» := none,
          earliest_fill := some dt0, latest_fill := some dt0 } ∧
    decOne ≠ (⟨false, 0, 1⟩ : Decimal) ∧
    decOne.val ≠ Decimal.val ⟨false, 0, 1⟩ := by
  refine ⟨List.Perm.cons _ (List.Perm.swap _ _ _), rfl, rfl, by decide, ?_⟩
  norm_num [Decimal.val, decOne]

/-- Claim C6 (amended): on any permutation of its input,
`summarize_realized_pnl` fails in exactly the same cases with the same
error, and on success returns a summary agreeing on `trade_count`, the
echoed bounds and the earliest/latest fills; the totals also agree in value
whenever neither iteration order's running sum rounds.  (The totals can
differ when an addition rounds, as the counterexample shows.) -/
theorem C6_summarize_perm_rounded (trades trades' : List Trade)
    (start «end» : Option DateTime) (hperm : trades.Perm trades') :
    (∀ e, summarize_realized_pnl trades start «end» = Except.error e ↔
        summarize_realized_pnl trades' start «end» = Except.error e) ∧
    ∀ s s', summarize_realized_pnl trades start «end» = Except.ok s →
      summarize_realized_pnl trades' start «end» = Except.ok s' →
      s.trade_count = s'.trade_count ∧ s.start = s'.start ∧ s.«end» = s'.«end» ∧
      s.earliest_fill = s'.earliest_fill ∧ s.latest_fill = s'.latest_fill ∧
      (ExactTrace zeroDecimal
          ((_filter_trades trades start «end»).map Trade.realized_pnl) →
        ExactTrace zeroDecimal
          ((_filter_trades trades' start «end»).map Trade.realized_pnl) →
        s.total.val = s'.total.val) := by
  have hp : (_filter_trades trades start «end»).Perm
      (_filter_trades trades' start «end») := hperm.filter _
  unfold summarize_realized_pnl
  cases hinv : invalidRange start «end» with
  | true =>
    simp only [hinv, if_true]
    exact ⟨fun e => trivial, fun s s' h _ => absurd h (by simp)⟩
  | false =>
    simp only [hinv, Bool.false_eq_true, if_false]
    refine ⟨fun e => ⟨fun h => absurd h (by simp), fun h => absurd h (by simp)⟩, ?_⟩
    intro s s' hs hs'
    obtain rfl := Except.ok.inj hs
    obtain rfl := Except.ok.inj hs'
    refine ⟨?_, rfl, rfl, ?_, ?_, ?_⟩
    · simp only [foldl_summaryStep_count]
      rw [hp.length_eq]
    · simp only [foldl_summaryStep_earliest]
      rw [minFill_perm hp]
    · simp only [foldl_summaryStep_latest]
      rw [maxFill_perm hp]
    · intro h₁ h₂
      simp only [foldl_summaryStep_total]
      rw [exactTrace_foldl_val _ _ h₁, exactTrace_foldl_val _ _ h₂,
        ((hp.map Trade.realized_pnl).map Decimal.val).sum_eq]

/-- The summary both iteration orders of the two-trade sample produce. -/
def c6s : PnLSummary :=
  { total := decThree, trade_count := 2, start := none, «end» := none,
    earliest_fill := some dt0, latest_fill := some dt1 }

theorem C6_summarize_perm_rounded_witness :
    ([sampleTrade decOne dt0, sampleTrade decTwo dt1].Perm
      [sampleTrade decTwo dt1, sampleTrade decOne dt0]) ∧
    summarize_realized_pnl [sampleTrade decOne dt0, sampleTrade decTwo dt1]
        none none = Except.ok c6s ∧
    summarize_realized_pnl [sampleTrade decTwo dt1, sampleTrade decOne dt0]
        none none = Except.ok c6s ∧
    c6s.trade_count = c6s.trade_count ∧ c6s.earliest_fill = c6s.earliest_fill ∧
    c6s.latest_fill = c6s.latest_fill := by
  have hperm : [sampleTrade decOne dt0, sampleTrade decTwo dt1].Perm
      [sampleTrade decTwo dt1, sampleTrade decOne dt0] := List.Perm.swap _ _ _
  have h₁ : summarize_realized_pnl [sampleTrade decOne dt0, sampleTrade decTwo dt1]
      none none = Except.ok c6s := rfl
  have h₂ : summarize_realized_pnl [sampleTrade decTwo dt1, sampleTrade decOne dt0]
      none none = Except.ok c6s := rfl
  obtain ⟨-, hok⟩ := C6_summarize_perm_rounded _ _ none none hperm
  obtain ⟨hc, -, -, he, hl, -⟩ := hok c6s c6s h₁ h₂
  exact ⟨hperm, h₁, h₂, hc, he, hl⟩

/-- Claim C10: every summary returned by `summarize_realized_pnl` echoes the
requested bounds; when `trade_count > 0` the earliest/latest fills are set,
ordered, within the requested bounds, and are fill times of included records;
when `trade_count = 0` both are unset. -/
theorem C10_summary_invariant (trades : List Trade) (start «end» : Option DateTime)
    (s : PnLSummary)
    (h : summarize_realized_pnl trades start «end» = Except.ok s) :
    s.start = start ∧ s.«end» = «end» ∧
      (0 < s.trade_count →
        ∃ me ml, s.earliest_fill = some me ∧ s.latest_fill = some ml ∧ me ≤ ml ∧
          (∀ st ∈ start, st ≤ me) ∧ (∀ en ∈ «end», ml ≤ en) ∧
          me ∈ (_filter_trades trades start «end»).map Trade.filled_time ∧
          ml ∈ (_filter_trades trades start «end»).map Trade.filled_time) ∧
      (s.trade_count = 0 → s.earliest_fill = none ∧ s.latest_fill = none) := by
  unfold summarize_realized_pnl at h
  cases hinv : invalidRange start «end» with
  | true => simp [hinv] at h
  | false =>
    simp only [hinv, Bool.false_eq_true, if_false, Except.ok.injEq] at h
    subst h
    set l := _filter_trades trades start «end» with hl
    refine ⟨rfl, rfl, ?_, ?_⟩
    · intro hpos
      simp only [foldl_summaryStep_count] at hpos
      have hne : l ≠ [] := by
        intro hnil
        rw [hnil] at hpos
        simp at hpos
      obtain ⟨me, hme⟩ : ∃ me, minFill l = some me := by
        cases hmin : minFill l with
        | none => exact absurd ((minFill_eq_none_iff l).1 hmin) hne
        | some me => exact ⟨me, rfl⟩
      obtain ⟨ml, hml⟩ : ∃ ml, maxFill l = some ml := by
        cases hmax : maxFill l with
        | none => exact absurd ((maxFill_eq_none_iff l).1 hmax) hne
        | some ml => exact ⟨ml, rfl⟩
      refine ⟨me, ml, ?_, ?_, ?_, ?_, ?_, ?_, ?_⟩
      · simp only [foldl_summaryStep_earliest, omin, hme]
      · simp only [foldl_summaryStep_latest, omax, hml]
      · exact minFill_le l me hme ml (maxFill_mem l ml hml)
      · intro st hst
        obtain ⟨t, htl, hteq⟩ := List.mem_map.1 (minFill_mem l me hme)
        have := ((mem_filter_trades trades start «end» t).1 (hl ▸ htl)).2.1 st hst
        exact hteq ▸ this
      · intro en hen
        obtain ⟨t, htl, hteq⟩ := List.mem_map.1 (maxFill_mem l ml hml)
        have := ((mem_filter_trades trades start «end» t).1 (hl ▸ htl)).2.2 en hen
        exact hteq ▸ this
      · exact minFill_mem l me hme
      · exact maxFill_mem l ml hml
    · intro hzero
      simp only [foldl_summaryStep_count] at hzero
      have hnil : l = [] := by
        cases hcase : l with
        | nil => rfl
        | cons a as =>
          rw [hcase] at hzero
          simp at hzero
      rw [hnil]
      exact ⟨by simp [foldl_summaryStep_earliest, minFill, omin], by
        simp [foldl_summaryStep_latest, maxFill, omax]⟩

theorem C10_summary_invariant_witness :
    summarize_realized_pnl [sampleTrade decOne dt0] (some dt0) (some dt1) =
      Except.ok sampleSummary ∧
    sampleSummary.start = some dt0 ∧ sampleSummary.«end» = some dt1 ∧
    (∃ me ml, sampleSummary.earliest_fill = some me ∧
      sampleSummary.latest_fill = some ml ∧ me ≤ ml ∧
      (∀ st ∈ (some dt0 : Option DateTime), st ≤ me) ∧
      (∀ en ∈ (some dt1 : Option DateTime), ml ≤ en) ∧
      me ∈ (_filter_trades [sampleTrade decOne dt0] (some dt0) (some dt1)).map
        Trade.filled_time ∧
      ml ∈ (_filter_trades [sampleTrade decOne dt0] (some dt0) (some dt1)).map
        Trade.filled_time) := by
  have h : summarize_realized_pnl [sampleTrade decOne dt0] (some dt0) (some dt1) =
      Except.ok sampleSummary := rfl
  obtain ⟨h₁, h₂, h₃, _⟩ :=
    C10_summary_invariant [sampleTrade decOne dt0] (some dt0) (some dt1) sampleSummary h
  exact ⟨h, h₁, h₂, h₃ (by decide)⟩

/-! ### Claims about the loader -/

/-- The cleaned cells of a line parsed as a single CSV row (no emptiness
filter); required names, being non-empty, occur here iff they occur in
`headerCells`. -/
def cleanedCellSet (line : String) : List String :=
  (parseCsvLine line).map _clean_header_cell

theorem required_columns_ne_empty : ∀ k ∈ _required_columns, k ≠ "" := by decide

theorem clean_empty : _clean_header_cell "" = "" := rfl

theorem mem_headerCells_iff (line k : String) (hk : k ≠ "") :
    k ∈ headerCells line ↔ k ∈ cleanedCellSet line := by
  constructor
  · intro h
    obtain ⟨c, hc, rfl⟩ := List.mem_map.1 h
    exact List.mem_map.2 ⟨c, List.mem_of_mem_filter hc, rfl⟩
  · intro h
    obtain ⟨c, hc, rfl⟩ := List.mem_map.1 h
    refine List.mem_map.2 ⟨c, List.mem_filter.2 ⟨hc, ?_⟩, rfl⟩
    simp only [ne_eq, decide_not, Bool.not_eq_eq_eq_not, Bool.not_true,
      decide_eq_false_iff_not]
    intro hce
    subst hce
    exact hk clean_empty

theorem isHeaderLine_iff (line : String) :
    isHeaderLine line = true ↔ ∀ k ∈ _required_columns, k ∈ headerCells line := by
  simp [isHeaderLine, List.all_eq_true, List.contains, List.elem_iff]

theorem headerScan_some_iff (lines : List String) (i : Nat) :
    headerScan lines = some i ↔
      (∃ line, lines.get? i = some line ∧ isHeaderLine line = true) ∧
        ∀ j, j < i → ∀ l, lines.get? j = some l → isHeaderLine l = false := by
  induction lines generalizing i with
  | nil => simp [headerScan]
  | cons x xs ih =>
    by_cases hx : isHeaderLine x = true
    · simp only [headerScan, hx, if_true]
      constructor
      · intro h
        obtain rfl : 0 = i := Option.some.inj h
        exact ⟨⟨x, rfl, hx⟩, fun j hj => absurd hj (Nat.not_lt_zero j)⟩
      · rintro ⟨⟨line, hget, hline⟩, hmin⟩
        cases i with
        | zero => rfl
        | succ n =>
          have := hmin 0 (Nat.succ_pos n) x rfl
          rw [hx] at this
          cases this
    · have hx' : isHeaderLine x = false := Bool.eq_false_iff.mpr hx
      simp only [headerScan, hx, if_false]
      constructor
      · intro h
        obtain ⟨i', hi', rfl⟩ := Option.map_eq_some'.1 h
        obtain ⟨⟨line, hget, hline⟩, hmin⟩ := (ih i').1 hi'
        refine ⟨⟨line, by simpa using hget, hline⟩, ?_⟩
        intro j hj l hl
        cases j with
        | zero =>
          obtain rfl : x = l := by simpa using hl
          exact hx'
        | succ j' =>
          exact hmin j' (by omega) l (by simpa using hl)
      · rintro ⟨⟨line, hget, hline⟩, hmin⟩
        cases i with
        | zero =>
          obtain rfl : x = line := by simpa using hget
          exact absurd hline hx
        | succ n =>
          have hxs := (ih n).2 ⟨⟨line, by simpa using hget, hline⟩,
            fun j hj l hl => hmin (j + 1) (by omega) l (by simpa using hl)⟩
          simp [hxs]

theorem headerScan_none_iff (lines : List String) :
    headerScan lines = none ↔ ∀ l ∈ lines, isHeaderLine l = false := by
  induction lines with
  | nil => simp [headerScan]
  | cons x xs ih =>
    by_cases hx : isHeaderLine x = true
    · simp [headerScan, hx]
    · have hx' : isHeaderLine x = false := Bool.eq_false_iff.2 hx
      simp [headerScan, hx, hx', Option.map_eq_none', ih]

/-- Claim C7: `_find_header_index` returns the index of the first line whose
single-row CSV parse, after cleaning each cell, contains every required
column name — arbitrary preamble lines before it are skipped — and fails
with the header-not-found error exactly when no line of the file qualifies. -/
theorem C7_header_detection (lines : List String) :
    (∀ i, _find_header_index lines = Except.ok i →
      ∃ line, lines.get? i = some line ∧
        (∀ k ∈ _required_columns, k ∈ cleanedCellSet line) ∧
        ∀ j, j < i → ∀ l, lines.get? j = some l →
          ¬ ∀ k ∈ _required_columns, k ∈ cleanedCellSet l) ∧
    (_find_header_index lines =
        Except.error
          "Unable to locate header row containing required columns in CSV file" ↔
      ∀ line ∈ lines, ¬ ∀ k ∈ _required_columns, k ∈ cleanedCellSet line) := by
  have hchar : ∀ l : String, isHeaderLine l = true ↔
      ∀ k ∈ _required_columns, k ∈ cleanedCellSet l := by
    intro l
    rw [isHeaderLine_iff]
    constructor
    · intro h k hk
      exact (mem_headerCells_iff l k (required_columns_ne_empty k hk)).1 (h k hk)
    · intro h k hk
      exact (mem_headerCells_iff l k (required_columns_ne_empty k hk)).2 (h k hk)
  constructor
  · intro i hi
    have hscan : headerScan lines = some i := by
      unfold _find_header_index at hi
      cases hs : headerScan lines with
      | none => rw [hs] at hi; cases hi
      | some j =>
        rw [hs] at hi
        obtain rfl : j = i := Except.ok.inj hi
        rfl
    obtain ⟨⟨line, hget, hline⟩, hmin⟩ := (headerScan_some_iff lines i).1 hscan
    refine ⟨line, hget, (hchar line).1 hline, ?_⟩
    intro j hj l hl hall
    have := hmin j hj l hl
    rw [(hchar l).2 hall] at this
    cases this
  · constructor
    · intro he
      have hscan : headerScan lines = none := by
        unfold _find_header_index at he
        cases hs : headerScan lines with
        | none => rfl
        | some j => rw [hs] at he; cases he
      intro line hline hall
      have := (headerScan_none_iff lines).1 hscan line hline
      rw [(hchar line).2 hall] at this
      cases this
    · intro hall
      have hscan : headerScan lines = none := by
        rw [headerScan_none_iff]
        intro l hl
        by_cases h : isHeaderLine l = true
        · exact absurd ((hchar l).1 h) (hall l hl)
        · exact Bool.eq_false_iff.2 h
      unfold _find_header_index
      rw [hscan]

/-- A preamble metadata line followed by a well-formed header line. -/
def goodHeader : String :=
  "Uid,Contracts,Trade Type,Qty,Entry Price,Realized P&L,Filled Price,Exit Type,Filled/Settlement Time(UTC+0),Create Time\n"

def preambleLines : List String := ["UID: 382647166\n", goodHeader]

theorem C7_header_detection_witness :
    _find_header_index preambleLines = Except.ok 1 ∧
    (∃ line, preambleLines.get? 1 = some line ∧
      (∀ k ∈ _required_columns, k ∈ cleanedCellSet line) ∧
      ∀ j, j < 1 → ∀ l, preambleLines.get? j = some l →
        ¬ ∀ k ∈ _required_columns, k ∈ cleanedCellSet l) :=
  ⟨rfl, (C7_header_detection preambleLines).1 1 rfl⟩

theorem headerCells_sublist_cleanedCellSet (line : String) :
    ∀ k ∈ headerCells line, k ∈ cleanedCellSet line := by
  intro k hk
  obtain ⟨c, hc, rfl⟩ := List.mem_map.1 hk
  exact List.mem_map.2 ⟨c, List.mem_of_mem_filter hc, rfl⟩

/-- Claim C8 (amended): when the header line found by `_find_header_index`
parses to the same record as a single row and as the first record of the
remaining file (that is, it has no unterminated quoted cell spilling into
later lines), the missing-columns check of `load_trades` cannot fire, and the
load proceeds to normalizing the data rows. -/
theorem C8_missing_columns_unreachable (lines : List String) (i : Nat)
    (header : String) (rest : List (List String))
    (hfind : _find_header_index lines = Except.ok i)
    (hline : lines.get? i = some header)
    (hrec : csvRecords (lines.drop i) = parseCsvLine header :: rest) :
    load_trades lines =
      (rest.filter (fun row => !row.isEmpty)).mapM
        (fun row => _normalize_trade
          (dictGet ((parseCsvLine header).map _clean_header_cell) row)) := by
  have hscan : headerScan lines = some i := by
    unfold _find_header_index at hfind
    cases hs : headerScan lines with
    | none => rw [hs] at hfind; cases hfind
    | some j =>
      rw [hs] at hfind
      obtain rfl : j = i := Except.ok.inj hfind
      rfl
  have hhdr : isHeaderLine header = true := by
    obtain ⟨⟨l, hget, hl⟩, -⟩ := (headerScan_some_iff lines i).1 hscan
    rw [hline] at hget
    obtain rfl := Option.some.inj hget
    exact hl
  have hmiss : _required_columns.filter
      (fun key => !((parseCsvLine header).map _clean_header_cell).contains key) = [] := by
    rw [List.filter_eq_nil_iff]
    intro k hk
    have hmem : k ∈ cleanedCellSet header :=
      headerCells_sublist_cleanedCellSet header k ((isHeaderLine_iff header).1 hhdr k hk)
    have hcont : ((parseCsvLine header).map _clean_header_cell).contains k = true :=
      List.elem_iff.mpr hmem
    intro hbad
    simp only [hcont] at hbad
    exact absurd hbad (by decide)
  unfold load_trades
  rw [hfind]
  simp only [hrec, hmiss]

/-- A header line whose last cell is an unterminated quote: the single-line
parse used for detection sees `Create Time` (after stripping the newline),
while the `DictReader` parse continues the quoted cell into the next line. -/
def c8Lines : List String :=
  ["Uid,Contracts,Trade Type,Qty,Entry Price,Realized P&L,Filled Price,Exit Type,Filled/Settlement Time(UTC+0),\"Create Time\n",
   "x\n"]

set_option maxRecDepth 8000 in
theorem C8_counterexample :
    _find_header_index c8Lines = Except.ok 0 ∧
    load_trades c8Lines = Except.error "Missing required columns: Create Time" :=
  ⟨rfl, rfl⟩

def goodLines : List String := [goodHeader]

set_option maxRecDepth 8000 in
theorem C8_missing_columns_unreachable_witness :
    _find_header_index goodLines = Except.ok 0 ∧
    goodLines.get? 0 = some goodHeader ∧
    csvRecords (goodLines.drop 0) = parseCsvLine goodHeader :: ([] : List (List String)) ∧
    load_trades goodLines =
      (([] : List (List String)).filter (fun row => !row.isEmpty)).mapM
        (fun row => _normalize_trade
          (dictGet ((parseCsvLine goodHeader).map _clean_header_cell) row)) :=
  ⟨rfl, rfl, rfl, C8_missing_columns_unreachable goodLines 0 goodHeader [] rfl rfl rfl⟩

theorem except_bind_ok {α β : Type} (x : Except String α) (f : α → Except String β)
    (b : β) :
    (x >>= f) = Except.ok b ↔ ∃ a, x = Except.ok a ∧ f a = Except.ok b := by
  cases x <;> simp [Bind.bind, Except.bind]

theorem dictLookup_ok (row : String → Option (Option String)) (k : String)
    (v : Option String) :
    dictLookup row k = Except.ok v ↔ row k = some v := by
  cases h : row k <;> simp [dictLookup, h]

theorem parse_decimal_some (val : Option String) (col : String) (q : Decimal)
    (h : _parse_decimal val col = Except.ok q) :
    ∃ v, val = some v ∧ _parse_decimal (some v) col = Except.ok q := by
  cases val with
  | none => simp [_parse_decimal] at h
  | some v => exact ⟨v, rfl, h⟩

theorem parse_datetime_some (val : Option String) (col : String) (t : DateTime)
    (h : _parse_datetime val col = Except.ok t) :
    ∃ v, val = some v ∧ _parse_datetime (some v) col = Except.ok t := by
  cases val with
  | none => simp [_parse_datetime] at h
  | some v => exact ⟨v, rfl, h⟩

/-- Claim C9 (amended): a `Trade` record is produced only when the six parsed
fields (`Qty`, `Entry Price`, `Realized P&L`, `Filled Price`, the fill time
and the creation time) are each present — not padded to `None` — and pass
their field-level parses; an absent or unparseable parsed field fails the
normalization (and hence the load).  The four string-typed fields, however,
are copied into the record verbatim: an absent one yields a record with that
field unset instead of an error. -/
theorem C9_no_silent_defaults (row : String → Option (Option String)) (t : Trade)
    (h : _normalize_trade row = Except.ok t) :
    row "Uid" = some t.uid ∧
    row "Contracts" = some t.contract ∧
    row "Trade Type" = some t.trade_type ∧
    row "Exit Type" = some t.exit_type ∧
    (∃ v, row "Qty" = some (some v) ∧
      _parse_decimal (some v) "Qty" = Except.ok t.quantity) ∧
    (∃ v, row "Entry Price" = some (some v) ∧
      _parse_decimal (some v) "Entry Price" = Except.ok t.entry_price) ∧
    (∃ v, row "Realized P&L" = some (some v) ∧
      _parse_decimal (some v) "Realized P&L" = Except.ok t.realized_pnl) ∧
    (∃ v, row "Filled Price" = some (some v) ∧
      _parse_decimal (some v) "Filled Price" = Except.ok t.filled_price) ∧
    (∃ v, row "Filled/Settlement Time(UTC+0)" = some (some v) ∧
      _parse_datetime (some v) "Filled/Settlement Time(UTC+0)" =
        Except.ok t.filled_time) ∧
    (∃ v, row "Create Time" = some (some v) ∧
      _parse_datetime (some v) "Create Time" = Except.ok t.created_time) := by
  unfold _normalize_trade at h
  simp only [except_bind_ok] at h
  obtain ⟨uid, hUid, contract, hCon, trade_type, hTrd,
    vq, hvq, quantity, hq, vep, hvep, entry_price, hep,
    vrp, hvrp, realized_pnl, hrp, vfp, hvfp, filled_price, hfp,
    exit_type, hExit, vft, hvft, filled_time, hft,
    vct, hvct, created_time, hct, hpure⟩ := h
  have ht : Except.ok (Trade.mk uid contract trade_type quantity entry_price
      realized_pnl filled_price exit_type filled_time created_time) =
      Except.ok t := hpure
  obtain rfl := (Except.ok.inj ht).symm
  obtain ⟨v₁, rfl, hq'⟩ := parse_decimal_some _ _ _ hq
  obtain ⟨v₂, rfl, hep'⟩ := parse_decimal_some _ _ _ hep
  obtain ⟨v₃, rfl, hrp'⟩ := parse_decimal_some _ _ _ hrp
  obtain ⟨v₄, rfl, hfp'⟩ := parse_decimal_some _ _ _ hfp
  obtain ⟨v₅, rfl, hft'⟩ := parse_datetime_some _ _ _ hft
  obtain ⟨v₆, rfl, hct'⟩ := parse_datetime_some _ _ _ hct
  exact ⟨(dictLookup_ok _ _ _).1 hUid, (dictLookup_ok _ _ _).1 hCon,
    (dictLookup_ok _ _ _).1 hTrd, (dictLookup_ok _ _ _).1 hExit,
    ⟨v₁, (dictLookup_ok _ _ _).1 hvq, hq'⟩,
    ⟨v₂, (dictLookup_ok _ _ _).1 hvep, hep'⟩,
    ⟨v₃, (dictLookup_ok _ _ _).1 hvrp, hrp'⟩,
    ⟨v₄, (dictLookup_ok _ _ _).1 hvfp, hfp'⟩,
    ⟨v₅, (dictLookup_ok _ _ _).1 hvft, hft'⟩,
    ⟨v₆, (dictLookup_ok _ _ _).1 hvct, hct'⟩⟩

/-- A file whose header ends with `Exit Type` and whose data row is one cell
short: `csv.DictReader` pads the missing `Exit Type` with `None`. -/
def c9Lines : List String :=
  ["Uid,Contracts,Trade Type,Qty,Entry Price,Realized P&L,Filled Price,Filled/Settlement Time(UTC+0),Create Time,Exit Type\n",
   "1,BTCUSDT,SELL,2,100,5,100,2025-07-18 06:34:26,2025-07-18 06:34:26\n"]

/-- The cleaned fieldnames of the `c9Lines` header. -/
def c9Fieldnames : List String :=
  ["Uid", "Contracts", "Trade Type", "Qty", "Entry Price", "Realized P&L",
   "Filled Price", "Filled/Settlement Time(UTC+0)", "Create Time", "Exit Type"]

/-- The cells of the short data row of `c9Lines`. -/
def c9Row : List String :=
  ["1", "BTCUSDT", "SELL", "2", "100", "5", "100",
   "2025-07-18 06:34:26", "2025-07-18 06:34:26"]

/-- The trade `load_trades` produces from the short row: `exit_type` is
silently `None`. -/
def c9Trade : Trade :=
  { uid := some "1", contract := some "BTCUSDT", trade_type := some "SELL",
    quantity := ⟨false, 2, 0⟩, entry_price := ⟨false, 100, 0⟩,
    realized_pnl := ⟨false, 5, 0⟩, filled_price := ⟨false, 100, 0⟩,
    exit_type := none, filled_time := dt0, created_time := dt0 }

set_option maxRecDepth 8000 in
theorem C9_counterexample :
    dictGet c9Fieldnames c9Row "Exit Type" = some none ∧
    load_trades c9Lines = Except.ok [c9Trade] :=
  ⟨rfl, rfl⟩

set_option maxRecDepth 8000 in
theorem C9_no_silent_defaults_witness :
    _normalize_trade (dictGet c9Fieldnames c9Row) = Except.ok c9Trade ∧
    dictGet c9Fieldnames c9Row "Uid" = some c9Trade.uid ∧
    dictGet c9Fieldnames c9Row "Exit Type" = some c9Trade.exit_type ∧
    (∃ v, dictGet c9Fieldnames c9Row "Qty" = some (some v) ∧
      _parse_decimal (some v) "Qty" = Except.ok c9Trade.quantity) := by
  have h : _normalize_trade (dictGet c9Fieldnames c9Row) = Except.ok c9Trade := rfl
  obtain ⟨hU, hC, hT, hE, hQ, -⟩ := C9_no_silent_defaults _ _ h
  exact ⟨h, hU, hE, hQ⟩

end BBCalc
